import Mathlib

/-!
Verification of the crypto-trend signal core (services/api/app/main.py).

The Python floats are modelled as real numbers, Python lists of closes as
List ℝ, and HTTP error responses as the error side of Except.  Each
definition below mirrors one function of the source file; the theorems at
the end settle the frozen claims about the signal model, the walk-forward
backtest and the trade simulator.
-/

namespace CryptoTrend

/-- Risk profiles accepted by every endpoint (RiskProfile literal type). -/
inductive RiskProfile
  | conservative
  | moderate
  | aggressive
deriving DecidableEq, Repr

/-- Volatility regime labels produced by the signal model. -/
inductive Regime
  | low
  | medium
  | high
deriving DecidableEq, Repr

/-- Outlook labels produced by the outlook classifier. -/
inductive Outlook
  | bullish
  | neutral
  | bearish
deriving DecidableEq, Repr

/-- Error raised as an HTTPException with status 502: the core raises it in
place of any result, so a call yields either a fully populated record or
this error, never both. -/
inductive ApiError
  | insufficientData (detail : String)
deriving DecidableEq, Repr

/-- Python negative indexing closes[-k]: valid when 1 ≤ k ≤ len(closes),
otherwise an IndexError, modelled as none. -/
def pyNegIdx (closes : List ℝ) (k : ℕ) : Option ℝ :=
  if 1 ≤ k ∧ k ≤ closes.length then closes[closes.length - k]? else none

/-- Embedding of the source function with its index accesses bounds-checked:
the momentum blend 0.65 * (closes[-1]/closes[-12] - 1) + 0.35 *
(closes[-1]/closes[-48] - 1), or none when an access raises IndexError. -/
noncomputable def momentum_score_checked (closes : List ℝ) : Option ℝ := do
  let c1 ← pyNegIdx closes 1
  let c12 ← pyNegIdx closes 12
  let c48 ← pyNegIdx closes 48
  pure (0.65 * (c1 / c12 - 1) + 0.35 * (c1 / c48 - 1))

/-- Total form of the momentum blend, agreeing with the bounds-checked form
whenever at least 48 closes are supplied (every caller in the source
guarantees at least 60). -/
noncomputable def momentumScore (closes : List ℝ) : ℝ :=
  let r12 := closes.getD (closes.length - 1) 0 / closes.getD (closes.length - 12) 0 - 1
  let r48 := closes.getD (closes.length - 1) 0 / closes.getD (closes.length - 48) 0 - 1
  0.65 * r12 + 0.35 * r48

/-- Single-bar returns closes[i]/closes[i-1] - 1 over all consecutive pairs,
as built by the list comprehension in the source. -/
noncomputable def seriesReturns (closes : List ℝ) : List ℝ :=
  List.zipWith (fun prev cur => cur / prev - 1) closes closes.tail

/-- Population standard deviation of the single-bar returns of the whole
supplied window, 0 when there are no returns. -/
noncomputable def volatility (closes : List ℝ) : ℝ :=
  let returns := seriesReturns closes
  if returns.isEmpty then 0
  else
    let mean := returns.sum / (returns.length : ℝ)
    let var := (returns.map (fun x => (x - mean) ^ 2)).sum / (returns.length : ℝ)
    Real.sqrt var

/-- Signal model: clamped logistic of the weighted feature combination. -/
noncomputable def up_probability (momentum vol : ℝ) : ℝ :=
  let x := momentum * 24 - vol * 8
  let p := 1 / (1 + Real.exp (-x))
  max 0.05 (min 0.95 p)

/-- Volatility regime bucketing. -/
noncomputable def volatility_regime (vol : ℝ) : Regime :=
  if vol < 0.008 then .low
  else if vol < 0.02 then .medium
  else .high

/-- Outlook classification thresholds shared by the explain endpoint and the
alert poller. -/
noncomputable def outlook_from_probability (p : ℝ) : Outlook :=
  if 0.56 ≤ p then .bullish
  else if p ≤ 0.44 then .bearish
  else .neutral

/-- Confidence reported by the explain endpoint. -/
noncomputable def outlookConfidence (p : ℝ) : ℝ :=
  |p - 0.5| * 2

/-- Entry threshold per risk profile. -/
noncomputable def entry_threshold (risk : RiskProfile) : ℝ :=
  match risk with
  | .conservative => 0.62
  | .aggressive => 0.52
  | .moderate => 0.55

/-- Position size, stop loss and take profit per risk profile. -/
noncomputable def risk_params (risk : RiskProfile) : ℝ × ℝ × ℝ :=
  match risk with
  | .conservative => (0.15, 0.025, 0.05)
  | .aggressive => (0.35, 0.05, 0.10)
  | .moderate => (0.25, 0.035, 0.07)

/-- Modelled from the spec: the clamp used in the SignalModel contract
clamp(logistic(24*momentum - 8*volatility), 0.05, 0.95). -/
noncomputable def clamp (x lo hi : ℝ) : ℝ :=
  min hi (max lo x)

/-- Modelled from the spec: logistic(x) = 1/(1+e^-x). -/
noncomputable def logistic (x : ℝ) : ℝ :=
  1 / (1 + Real.exp (-x))

/-- Modelled from the spec: population standard deviation
sqrt(mean((returns - mean(returns))^2)) of a list of returns. -/
noncomputable def popStdDev (returns : List ℝ) : ℝ :=
  let mean := returns.sum / (returns.length : ℝ)
  Real.sqrt ((returns.map (fun r => (r - mean) ^ 2)).sum / (returns.length : ℝ))

/-- Modelled from the spec: volatility as the population standard deviation
of returns[i] = close[i]/close[i-1] - 1 taken over every consecutive pair of
the entire supplied window, and 0 when fewer than 2 closes are supplied. -/
noncomputable def volatilitySpec (closes : List ℝ) : ℝ :=
  if closes.length < 2 then 0
  else popStdDev ((List.range (closes.length - 1)).map
    (fun k => closes.getD (k + 1) 0 / closes.getD k 0 - 1))

/-- Result record of the live trend endpoint (presentation-only fields such
as the explanation string and decimal rounding are not modelled). -/
structure TrendResult where
  risk_profile : RiskProfile
  up_probability : ℝ
  momentum_score : ℝ
  volatility_regime : Regime

/-- Live signal endpoint: errors when fewer than 60 closes are available,
otherwise computes features and the signal on the whole series. -/
noncomputable def trend (closes : List ℝ) (risk : RiskProfile) : Except ApiError TrendResult :=
  if closes.length < 60 then .error (.insufficientData "Not enough market data")
  else
    let m := momentumScore closes
    let v := volatility closes
    .ok ⟨risk, up_probability m v, m, volatility_regime v⟩

/-- Python slice klines[-lookback:], keeping the last lookback elements
(and, as in Python, the whole list when lookback = 0). -/
def lastWindow (klines : List ℝ) (lookback : ℕ) : List ℝ :=
  if lookback = 0 then klines else klines.drop (klines.length - lookback)

/-- Signal-dependent values of one walk-forward step: everything here is
computed from the prefix closes[0..i] only. -/
structure StepSignal where
  momentum : ℝ
  volatility : ℝ
  upProb : ℝ
  predUp : Bool
  enter : Bool

/-- Walk-forward step signal at index i: features, up-probability, the
direction prediction p_up ≥ 0.5 and the entry decision p_up ≥ threshold,
all computed on the history prefix closes[: i + 1]. -/
noncomputable def stepSignal (closes : List ℝ) (thr : ℝ) (i : ℕ) : StepSignal :=
  let hist := closes.take (i + 1)
  let m := momentumScore hist
  let v := volatility hist
  let p := up_probability m v
  ⟨m, v, p, decide (0.5 ≤ p), decide (thr ≤ p)⟩

/-- Mutable state of the backtest loop. -/
structure BtState where
  correct : ℕ
  total : ℕ
  equity : ℝ
  buyHold : ℝ
  peak : ℝ
  maxDd : ℝ

/-- Initial backtest state: counters 0, both equity curves and the peak at
1.0, max drawdown 0. -/
noncomputable def btInit : BtState :=
  ⟨0, 0, 1, 1, 1, 0⟩

/-- One iteration of the backtest loop at index i. -/
noncomputable def btStep (closes : List ℝ) (thr : ℝ) (st : BtState) (i : ℕ) : BtState :=
  let s := stepSignal closes thr i
  let next_ret := closes.getD (i + 1) 0 / closes.getD i 0 - 1
  let actual_up := decide (0 ≤ next_ret)
  let correct' := if s.predUp = actual_up then st.correct + 1 else st.correct
  let equity' := if s.enter then st.equity * (1 + next_ret) else st.equity
  let buyHold' := st.buyHold * (1 + next_ret)
  let peak' := max st.peak equity'
  ⟨correct', st.total + 1, equity', buyHold', peak', min st.maxDd (equity' / peak' - 1)⟩

/-- The backtest loop for i in range(60, len(closes) - 1). -/
noncomputable def btLoopState (closes : List ℝ) (thr : ℝ) : BtState :=
  (List.range' 60 (closes.length - 1 - 60)).foldl (btStep closes thr) btInit

/-- Result record of the backtest endpoint (timestamps, note strings and
decimal rounding are not modelled; the equity curve appears through the
final loop state). -/
structure BacktestResult where
  bars_tested : ℕ
  signal_accuracy : ℝ
  strategy_return : ℝ
  buy_hold_return : ℝ
  alpha_vs_buy_hold : ℝ
  max_drawdown : ℝ

/-- Backtest endpoint: errors when the series is shorter than the requested
lookback, runs the walk-forward loop on the last lookback closes, errors
when the loop produced zero samples, otherwise returns the result record. -/
noncomputable def backtest (klines : List ℝ) (lookback : ℕ) (risk : RiskProfile) :
    Except ApiError BacktestResult :=
  if klines.length < lookback then
    .error (.insufficientData "Not enough market data for requested lookback")
  else
    let closes := lastWindow klines lookback
    let st := btLoopState closes (entry_threshold risk)
    if st.total = 0 then .error (.insufficientData "Backtest produced no samples")
    else
      .ok ⟨st.total, (st.correct : ℝ) / st.total, st.equity - 1, st.buyHold - 1,
        (st.equity - 1) - (st.buyHold - 1), st.maxDd⟩

/-- One simulated trade, recorded for the theorems: bar index of the entry,
bar index of the exit and the realized exit return. -/
structure Trade where
  entryIdx : ℕ
  exitIdx : ℕ
  exitRet : ℝ

/-- Scan of the stop/target loop for j in range(i+1, min(i+25, len(closes)))
written with the inclusive upper bound jmax = min(i+24, len(closes)-1):
first j whose return since entry crosses the stop or the target, with the
realized return clipped exactly to the crossed bound. -/
noncomputable def findExit (closes : List ℝ) (entry stopLoss takeProfit : ℝ)
    (jmax j : ℕ) : Option (ℕ × ℝ) :=
  if h : j ≤ jmax then
    if closes.getD j 0 / entry - 1 ≤ -stopLoss then some (j, -stopLoss)
    else if takeProfit ≤ closes.getD j 0 / entry - 1 then some (j, takeProfit)
    else findExit closes entry stopLoss takeProfit jmax (j + 1)
  else none
  termination_by jmax + 1 - j

/-- Exit of a trade entered at bar i: the first stop/target hit within the
24-bar horizon, or the time-based exit at bar min(i+24, len(closes)-1) with
the actual unclamped return. -/
noncomputable def tradeExit (closes : List ℝ) (i : ℕ) (stopLoss takeProfit : ℝ) : ℕ × ℝ :=
  let entry := closes.getD i 0
  let jmax := min (i + 24) (closes.length - 1)
  match findExit closes entry stopLoss takeProfit jmax (i + 1) with
  | some jr => jr
  | none => (jmax, closes.getD jmax 0 / entry - 1)

/-- Mutable state of the trade simulator, instrumented with the list of
executed trades in chronological order. -/
structure SimState where
  equity : ℝ
  peak : ℝ
  maxDd : ℝ
  wins : ℕ
  trades : ℕ
  log : List Trade

/-- Booking of one closed trade: pnl applied to equity, win counting, and
peak/drawdown tracking, exactly as the lines following the exit scan. -/
noncomputable def applyTrade (posSize : ℝ) (st : SimState) (i : ℕ) (je : ℕ × ℝ) : SimState :=
  let pnl := st.equity * posSize * je.2
  let equity' := st.equity + pnl
  let peak' := max st.peak equity'
  ⟨equity', peak', min st.maxDd (equity' / peak' - 1),
    if 0 < pnl then st.wins + 1 else st.wins, st.trades + 1,
    st.log ++ [⟨i, je.1, je.2⟩]⟩

/-- Main while loop of the portfolio simulator: at cursor i below
len(closes) - 2, either skip one bar when the up-probability is below the
entry threshold, or book the trade entered at i and move the cursor just
past its exit bar.  The loop is written with a structural fuel argument;
since every iteration strictly advances the cursor, any fuel of at least
len(closes) - i runs the loop to completion (theorem simLoopF_fuel_stable
below), and the simulator invokes it with fuel len(closes). -/
noncomputable def simLoopF (closes : List ℝ) (thr posSize stopLoss takeProfit : ℝ) :
    ℕ → ℕ → SimState → SimState
  | 0, _, st => st
  | fuel + 1, i, st =>
    if i < closes.length - 2 then
      let hist := closes.take (i + 1)
      if up_probability (momentumScore hist) (volatility hist) < thr then
        simLoopF closes thr posSize stopLoss takeProfit fuel (i + 1) st
      else
        simLoopF closes thr posSize stopLoss takeProfit fuel
          ((tradeExit closes i stopLoss takeProfit).1 + 1)
          (applyTrade posSize st i (tradeExit closes i stopLoss takeProfit))
    else st

/-- Result record of the portfolio simulation endpoint (echoed parameters,
note strings and decimal rounding are not modelled; the trade log is the
instrumentation carried by the loop state). -/
structure SimResult where
  trades : ℕ
  win_rate : ℝ
  final_equity : ℝ
  pnl_pct : ℝ
  max_drawdown : ℝ
  log : List Trade

/-- Portfolio simulation endpoint: errors when the series is shorter than
the requested lookback, otherwise runs the trade loop from cursor 60 on the
last lookback closes. -/
noncomputable def portfolio_simulate (klines : List ℝ) (lookback : ℕ)
    (risk : RiskProfile) (initial_capital : ℝ) : Except ApiError SimResult :=
  if klines.length < lookback then
    .error (.insufficientData "Not enough market data for requested lookback")
  else
    let closes := lastWindow klines lookback
    let ps := (risk_params risk).1
    let sl := (risk_params risk).2.1
    let tp := (risk_params risk).2.2
    let st := simLoopF closes (entry_threshold risk) ps sl tp closes.length 60
      ⟨initial_capital, initial_capital, 0, 0, 0, []⟩
    .ok ⟨st.trades, if st.trades = 0 then 0 else (st.wins : ℝ) / st.trades,
      st.equity, st.equity / initial_capital - 1, st.maxDd, st.log⟩

/-- Ordering of two recorded trades: the later trade enters strictly after
the earlier one entered and strictly after it exited, so the bar ranges
[entryIdx, exitIdx] of the two trades are disjoint. -/
def tradeOrdered (a b : Trade) : Prop :=
  a.entryIdx < b.entryIdx ∧ a.exitIdx < b.entryIdx

/-- Evaluation of a predicate on the success side of an endpoint call; an
error case carries no result record to constrain. -/
def onOk {ε α : Type _} (e : Except ε α) (p : α → Prop) : Prop :=
  match e with
  | .ok a => p a
  | .error _ => True

theorem getD_of_lt (l : List ℝ) (n : ℕ) (d : ℝ) (h : n < l.length) : l.getD n d = l[n] := by
  rw [List.getD_eq_getElem?_getD, List.getElem?_eq_getElem h]
  rfl

theorem getD_replicate_of_lt (n m : ℕ) (a d : ℝ) (h : m < n) :
    (List.replicate n a).getD m d = a := by
  rw [getD_of_lt _ _ _ (by simpa using h)]
  exact List.getElem_replicate ..

theorem pyNegIdx_eq (closes : List ℝ) (k : ℕ) (h1 : 1 ≤ k) (h2 : k ≤ closes.length) :
    pyNegIdx closes k = some (closes.getD (closes.length - k) 0) := by
  unfold pyNegIdx
  rw [if_pos ⟨h1, h2⟩]
  have hlt : closes.length - k < closes.length := by omega
  rw [List.getElem?_eq_getElem hlt, getD_of_lt _ _ _ hlt]

theorem pyNegIdx_none (closes : List ℝ) (k : ℕ) (h : closes.length < k) :
    pyNegIdx closes k = none := by
  unfold pyNegIdx
  rw [if_neg]
  intro hc
  omega

theorem momentum_checked_eq (closes : List ℝ) (h : 48 ≤ closes.length) :
    momentum_score_checked closes = some (momentumScore closes) := by
  unfold momentum_score_checked momentumScore
  rw [pyNegIdx_eq closes 1 (by omega) (by omega), pyNegIdx_eq closes 12 (by omega) (by omega),
    pyNegIdx_eq closes 48 (by omega) (by omega)]
  rfl

theorem momentum_checked_none (closes : List ℝ) (h : closes.length < 48) :
    momentum_score_checked closes = none := by
  unfold momentum_score_checked
  rw [pyNegIdx_none closes 48 h]
  cases h1 : pyNegIdx closes 1 <;> cases h12 : pyNegIdx closes 12 <;> rfl

theorem momentumScore_replicate (n : ℕ) (a : ℝ) (hn : 1 ≤ n) :
    momentumScore (List.replicate n a) = 0.65 * (a / a - 1) + 0.35 * (a / a - 1) := by
  unfold momentumScore
  simp only [List.length_replicate]
  rw [getD_replicate_of_lt n (n - 1) a 0 (by omega), getD_replicate_of_lt n (n - 12) a 0 (by omega),
    getD_replicate_of_lt n (n - 48) a 0 (by omega)]

theorem seriesReturns_replicate (n : ℕ) (a : ℝ) :
    seriesReturns (List.replicate n a) = List.replicate (n - 1) (a / a - 1) := by
  unfold seriesReturns
  rw [List.tail_replicate, List.zipWith_replicate]
  congr 1
  omega

theorem volatility_replicate (n : ℕ) (a : ℝ) (h2 : 2 ≤ n) (ha : a ≠ 0) :
    volatility (List.replicate n a) = 0 := by
  unfold volatility
  rw [seriesReturns_replicate]
  have hret : a / a - 1 = 0 := by
    rw [div_self ha]
    ring
  rw [hret, if_neg]
  · simp [List.map_replicate, List.sum_replicate, Real.sqrt_zero]
  · simp [List.isEmpty_iff, List.replicate_eq_nil_iff]
    omega

theorem seriesReturns_eq_range_map (closes : List ℝ) :
    seriesReturns closes = (List.range (closes.length - 1)).map
      (fun k => closes.getD (k + 1) 0 / closes.getD k 0 - 1) := by
  induction closes with
  | nil => rfl
  | cons a t ih =>
    cases t with
    | nil => rfl
    | cons b t' =>
      show (fun prev cur => cur / prev - 1) a b :: seriesReturns (b :: t') = _
      rw [ih]
      simp only [List.length_cons, Nat.add_sub_cancel, List.range_succ_eq_map, List.map_cons,
        List.map_map]
      congr 1

theorem up_probability_zero_features : up_probability 0 0 = 0.5 := by
  simp only [up_probability]
  norm_num [Real.exp_zero, min_def, max_def]

/-- C1: for all momentum and volatility values the up-probability equals the
clamped logistic of 24*momentum - 8*volatility with clamp bounds 0.05 and
0.95, and is therefore always between 0.05 and 0.95. -/
theorem up_probability_matches_spec (m v : ℝ) :
    up_probability m v = clamp (logistic (24 * m - 8 * v)) 0.05 0.95 ∧
    0.05 ≤ up_probability m v ∧ up_probability m v ≤ 0.95 := by
  refine ⟨?_, ?_, ?_⟩
  · simp only [up_probability, clamp, logistic]
    rw [show m * 24 - v * 8 = 24 * m - 8 * v by ring, max_min_distrib_left]
    norm_num
  · simp only [up_probability]
    exact le_max_left ..
  · simp only [up_probability]
    exact max_le (by norm_num) (min_le_left ..)

/-- C3: the volatility feature is the population standard deviation of the
single-bar returns of the entire supplied window, it is 0 on series of fewer
than 2 closes, and each walk-forward step applies it to the whole history
prefix closes[0..i]. -/
theorem volatility_matches_population_stddev (closes : List ℝ) :
    volatility closes = volatilitySpec closes ∧
    (closes.length < 2 → volatility closes = 0) ∧
    (∀ thr : ℝ, ∀ i : ℕ, (stepSignal closes thr i).volatility = volatility (closes.take (i + 1))) := by
  have hlen : (seriesReturns closes).length = closes.length - 1 := by
    unfold seriesReturns
    rw [List.length_zipWith, List.length_tail]
    omega
  have hmain : volatility closes = volatilitySpec closes := by
    unfold volatility volatilitySpec
    by_cases h2 : closes.length < 2
    · rw [if_pos h2, if_pos]
      rw [List.isEmpty_iff, ← List.length_eq_zero, hlen]
      omega
    · rw [if_neg h2, if_neg]
      · unfold popStdDev
        rw [seriesReturns_eq_range_map]
      · rw [List.isEmpty_iff, ← List.length_eq_zero, hlen]
        omega
  refine ⟨hmain, ?_, ?_⟩
  · intro h2
    rw [hmain]
    unfold volatilitySpec
    rw [if_pos h2]
  · intro thr i
    rfl

theorem volatility_matches_population_stddev_witness :
    volatility [(5:ℝ)] = 0 :=
  (volatility_matches_population_stddev [(5:ℝ)]).2.1 (by simp)

/-- C7: on a flat series of at least 60 closes at price 100 the momentum is
0, the volatility is 0, the up-probability is exactly 0.5, the volatility
regime is low, the outlook is neutral and the confidence is 0. -/
theorem flat_series_neutral_signal (n : ℕ) (h : 60 ≤ n) :
    momentum_score_checked (List.replicate n (100:ℝ)) = some 0 ∧
    volatility (List.replicate n (100:ℝ)) = 0 ∧
    up_probability (momentumScore (List.replicate n (100:ℝ)))
      (volatility (List.replicate n (100:ℝ))) = 0.5 ∧
    volatility_regime (volatility (List.replicate n (100:ℝ))) = .low ∧
    outlook_from_probability (up_probability (momentumScore (List.replicate n (100:ℝ)))
      (volatility (List.replicate n (100:ℝ)))) = .neutral ∧
    outlookConfidence (up_probability (momentumScore (List.replicate n (100:ℝ)))
      (volatility (List.replicate n (100:ℝ)))) = 0 := by
  have hm : momentumScore (List.replicate n (100:ℝ)) = 0 := by
    rw [momentumScore_replicate n 100 (by omega)]
    norm_num
  have hv : volatility (List.replicate n (100:ℝ)) = 0 := by
    exact volatility_replicate n 100 (by omega) (by norm_num)
  have hp : up_probability (momentumScore (List.replicate n (100:ℝ)))
      (volatility (List.replicate n (100:ℝ))) = 0.5 := by
    rw [hm, hv]
    exact up_probability_zero_features
  refine ⟨?_, hv, hp, ?_, ?_, ?_⟩
  · rw [momentum_checked_eq _ (by simp; omega), hm]
  · rw [hv]
    unfold volatility_regime
    rw [if_pos (by norm_num)]
  · rw [hp]
    unfold outlook_from_probability
    rw [if_neg (by norm_num), if_neg (by norm_num)]
  · rw [hp]
    unfold outlookConfidence
    norm_num

theorem flat_series_neutral_signal_witness :
    momentum_score_checked (List.replicate 60 (100:ℝ)) = some 0 ∧
    volatility (List.replicate 60 (100:ℝ)) = 0 ∧
    up_probability (momentumScore (List.replicate 60 (100:ℝ)))
      (volatility (List.replicate 60 (100:ℝ))) = 0.5 ∧
    volatility_regime (volatility (List.replicate 60 (100:ℝ))) = .low ∧
    outlook_from_probability (up_probability (momentumScore (List.replicate 60 (100:ℝ)))
      (volatility (List.replicate 60 (100:ℝ)))) = .neutral ∧
    outlookConfidence (up_probability (momentumScore (List.replicate 60 (100:ℝ)))
      (volatility (List.replicate 60 (100:ℝ)))) = 0 :=
  flat_series_neutral_signal 60 (by norm_num)

/-- C8 (counterexample): on a series of exactly 48 closes, fewer than 49,
every index access of the momentum blend is in bounds and the blend is
defined (with value 0 on a constant series), contradicting the claim that
fewer than 49 closes leave it undefined. -/
theorem momentum_defined_on_48_closes :
    (List.replicate 48 (1:ℝ)).length < 49 ∧
    momentum_score_checked (List.replicate 48 (1:ℝ)) = some 0 := by
  constructor
  · simp
  · rw [momentum_checked_eq _ (by simp), momentumScore_replicate 48 1 (by omega)]
    norm_num

theorem take_eq_of_agree (l₁ l₂ : List ℝ) (i : ℕ) (h : ∀ j : ℕ, j ≤ i → l₁[j]? = l₂[j]?) :
    l₁.take (i + 1) = l₂.take (i + 1) := by
  apply List.ext_getElem?
  intro n
  rw [List.getElem?_take, List.getElem?_take]
  by_cases hn : n < i + 1
  · rw [if_pos hn, if_pos hn]
    exact h n (by omega)
  · rw [if_neg hn, if_neg hn]

/-- C2: the walk-forward step signal at index i, that is the features, the
up-probability, the direction prediction and the entry decision, depends
only on the prefix closes[0..i]: two series of equal length agreeing up to
index i produce the identical step signal, however they differ later. -/
theorem backtest_step_no_lookahead (c₁ c₂ : List ℝ) (thr : ℝ) (i : ℕ)
    (_hlen : c₁.length = c₂.length) (hagree : ∀ j : ℕ, j ≤ i → c₁[j]? = c₂[j]?) :
    stepSignal c₁ thr i = stepSignal c₂ thr i := by
  have ht := take_eq_of_agree c₁ c₂ i hagree
  simp only [stepSignal, ht]

theorem backtest_step_no_lookahead_witness :
    stepSignal (List.replicate 62 (1:ℝ)) 0.55 60 =
    stepSignal (List.replicate 61 (1:ℝ) ++ [(2:ℝ)]) 0.55 60 :=
  backtest_step_no_lookahead _ _ _ _ (by simp)
    (by
      intro j hj
      have h61 : j < 61 := by omega
      have h62 : j < 62 := by omega
      have e1 : (List.replicate 62 (1:ℝ))[j]? = some 1 := by
        rw [List.getElem?_replicate, if_pos h62]
      have e2 : (List.replicate 61 (1:ℝ) ++ [(2:ℝ)])[j]? = some 1 := by
        rw [List.getElem?_append, List.length_replicate, if_pos h61,
          List.getElem?_replicate, if_pos h61]
      rw [e1, e2])

theorem btStep_total (closes : List ℝ) (thr : ℝ) (st : BtState) (i : ℕ) :
    (btStep closes thr st i).total = st.total + 1 := rfl

theorem foldl_btStep_total (closes : List ℝ) (thr : ℝ) :
    ∀ (l : List ℕ) (st : BtState),
      (l.foldl (btStep closes thr) st).total = st.total + l.length := by
  intro l
  induction l with
  | nil =>
    intro st
    simp
  | cons a t ih =>
    intro st
    rw [List.foldl_cons, ih, btStep_total, List.length_cons]
    omega

theorem btLoopState_total (closes : List ℝ) (thr : ℝ) :
    (btLoopState closes thr).total = closes.length - 1 - 60 := by
  unfold btLoopState
  rw [foldl_btStep_total]
  simp [btInit, List.length_range']

/-- C4: on a series of exactly the requested lookback length, for any
lookback of at least 120, the backtest succeeds and reports bars_tested
equal to lookback - 1 - 60, one unconditional sample per loop index. -/
theorem backtest_bars_tested (klines : List ℝ) (lookback : ℕ) (risk : RiskProfile)
    (h120 : 120 ≤ lookback) (hlen : klines.length = lookback) :
    ∃ r, backtest klines lookback risk = .ok r ∧ r.bars_tested = lookback - 1 - 60 := by
  have hwin : lastWindow klines lookback = klines := by
    unfold lastWindow
    rw [if_neg (by omega), hlen]
    simp
  have htot : (btLoopState (lastWindow klines lookback) (entry_threshold risk)).total =
      lookback - 1 - 60 := by
    rw [hwin, btLoopState_total, hlen]
  simp only [backtest]
  rw [if_neg (by omega : ¬klines.length < lookback), if_neg (by rw [htot]; omega)]
  exact ⟨_, rfl, htot⟩

theorem backtest_bars_tested_witness :
    ∃ r, backtest (List.replicate 120 (1:ℝ)) 120 .moderate = .ok r ∧
      r.bars_tested = 120 - 1 - 60 :=
  backtest_bars_tested (List.replicate 120 (1:ℝ)) 120 .moderate (by norm_num) (by simp)

/-- C5: insufficient data is reported as the distinct error, never a partial
record: the live signal errors exactly when fewer than 60 closes are
available; the backtest errors on a series shorter than the lookback and,
past that guard, errors when the loop produced zero samples; the portfolio
simulation errors on a series shorter than the lookback.  All results are
Except values, so an error excludes any result record. -/
theorem insufficient_data_errors (closes klines : List ℝ) (lookback : ℕ)
    (risk : RiskProfile) (cap : ℝ) :
    ((∃ e, trend closes risk = .error e) ↔ closes.length < 60) ∧
    (klines.length < lookback →
      backtest klines lookback risk =
        .error (.insufficientData "Not enough market data for requested lookback")) ∧
    (lookback ≤ klines.length →
      (btLoopState (lastWindow klines lookback) (entry_threshold risk)).total = 0 →
      backtest klines lookback risk =
        .error (.insufficientData "Backtest produced no samples")) ∧
    (klines.length < lookback →
      portfolio_simulate klines lookback risk cap =
        .error (.insufficientData "Not enough market data for requested lookback")) := by
  refine ⟨⟨?_, ?_⟩, ?_, ?_, ?_⟩
  · rintro ⟨e, he⟩
    by_contra hge
    unfold trend at he
    rw [if_neg hge] at he
    cases he
  · intro hlt
    exact ⟨.insufficientData "Not enough market data", by unfold trend; rw [if_pos hlt]⟩
  · intro hlt
    unfold backtest
    rw [if_pos hlt]
  · intro hge htot
    simp only [backtest]
    rw [if_neg (by omega), if_pos htot]
  · intro hlt
    unfold portfolio_simulate
    rw [if_pos hlt]

theorem insufficient_data_errors_witness :
    (∃ e, trend (List.replicate 59 (1:ℝ)) .moderate = .error e) ∧
    backtest (List.replicate 100 (1:ℝ)) 120 .moderate =
      .error (.insufficientData "Not enough market data for requested lookback") ∧
    backtest (List.replicate 61 (1:ℝ)) 61 .moderate =
      .error (.insufficientData "Backtest produced no samples") ∧
    portfolio_simulate (List.replicate 100 (1:ℝ)) 120 .moderate 10000 =
      .error (.insufficientData "Not enough market data for requested lookback") :=
  ⟨(insufficient_data_errors (List.replicate 59 (1:ℝ)) [] 0 .moderate 0).1.mpr (by simp),
    (insufficient_data_errors [] (List.replicate 100 (1:ℝ)) 120 .moderate 0).2.1 (by simp),
    (insufficient_data_errors [] (List.replicate 61 (1:ℝ)) 61 .moderate 0).2.2.1 (by simp)
      (by rw [btLoopState_total]; norm_num [lastWindow]),
    (insufficient_data_errors [] (List.replicate 100 (1:ℝ)) 120 .moderate 10000).2.2.2 (by simp)⟩

/-- C8 (amended): the momentum blend is defined, meaning every index access
closes[-1], closes[-12], closes[-48] is in bounds, exactly when the series
has at least 48 closes. -/
theorem momentum_defined_iff_48 (closes : List ℝ) :
    (momentum_score_checked closes).isSome = true ↔ 48 ≤ closes.length := by
  constructor
  · intro hs
    by_contra hlt
    rw [momentum_checked_none closes (by omega)] at hs
    simp at hs
  · intro h
    rw [momentum_checked_eq closes h]
    rfl

theorem findExit_some_bounds_aux (closes : List ℝ) (entry sl tp : ℝ) (jmax : ℕ) :
    ∀ (d j : ℕ) (jr : ℕ × ℝ), jmax + 1 - j ≤ d →
      findExit closes entry sl tp jmax j = some jr →
      j ≤ jr.1 ∧ jr.1 ≤ jmax ∧ (jr.2 = -sl ∨ jr.2 = tp) := by
  intro d
  induction d with
  | zero =>
    intro j jr hd hfe
    rw [findExit, dif_neg (by omega)] at hfe
    cases hfe
  | succ d ih =>
    intro j jr hd hfe
    rw [findExit] at hfe
    by_cases hj : j ≤ jmax
    · rw [dif_pos hj] at hfe
      split_ifs at hfe with h1 h2
      · cases hfe
        exact ⟨le_refl j, hj, Or.inl rfl⟩
      · cases hfe
        exact ⟨le_refl j, hj, Or.inr rfl⟩
      · have hr := ih (j + 1) jr (by omega) hfe
        exact ⟨by omega, hr.2.1, hr.2.2⟩
    · rw [dif_neg hj] at hfe
      cases hfe

theorem findExit_some_bounds (closes : List ℝ) (entry sl tp : ℝ) (jmax j : ℕ) (jr : ℕ × ℝ)
    (hfe : findExit closes entry sl tp jmax j = some jr) :
    j ≤ jr.1 ∧ jr.1 ≤ jmax ∧ (jr.2 = -sl ∨ jr.2 = tp) :=
  findExit_some_bounds_aux closes entry sl tp jmax (jmax + 1 - j) j jr (le_refl _) hfe

theorem findExit_none_miss_aux (closes : List ℝ) (entry sl tp : ℝ) (jmax : ℕ) :
    ∀ (d j : ℕ), jmax + 1 - j ≤ d → findExit closes entry sl tp jmax j = none →
      ∀ k, j ≤ k → k ≤ jmax →
        -sl < closes.getD k 0 / entry - 1 ∧ closes.getD k 0 / entry - 1 < tp := by
  intro d
  induction d with
  | zero =>
    intro j hd _ k hk1 hk2
    exact absurd hk2 (by omega)
  | succ d ih =>
    intro j hd hfe k hk1 hk2
    rw [findExit] at hfe
    have hj : j ≤ jmax := by omega
    rw [dif_pos hj] at hfe
    split_ifs at hfe with h1 h2
    rcases Nat.eq_or_lt_of_le hk1 with he | hlt2
    · subst he
      exact ⟨not_le.mp h1, not_le.mp h2⟩
    · exact ih (j + 1) (by omega) hfe k (by omega) hk2

theorem findExit_none_miss (closes : List ℝ) (entry sl tp : ℝ) (jmax j : ℕ)
    (hfe : findExit closes entry sl tp jmax j = none) :
    ∀ k, j ≤ k → k ≤ jmax →
      -sl < closes.getD k 0 / entry - 1 ∧ closes.getD k 0 / entry - 1 < tp :=
  findExit_none_miss_aux closes entry sl tp jmax (jmax + 1 - j) j (le_refl _) hfe

theorem tradeExit_fst_bounds (closes : List ℝ) (i : ℕ) (sl tp : ℝ)
    (h : i < closes.length - 2) :
    i + 1 ≤ (tradeExit closes i sl tp).1 ∧
      (tradeExit closes i sl tp).1 ≤ min (i + 24) (closes.length - 1) := by
  simp only [tradeExit]
  rcases hfe : findExit closes (closes.getD i 0) sl tp (min (i + 24) (closes.length - 1))
      (i + 1) with _ | jr
  · simp only [hfe]
    exact ⟨by omega, le_refl _⟩
  · have hb := findExit_some_bounds closes (closes.getD i 0) sl tp _ _ _ hfe
    simp only [hfe]
    exact ⟨hb.1, hb.2.1⟩

theorem tradeExit_snd_bounds (closes : List ℝ) (i : ℕ) (sl tp : ℝ)
    (h : i < closes.length - 2) (hsl : 0 ≤ sl) (htp : 0 ≤ tp) :
    -sl ≤ (tradeExit closes i sl tp).2 ∧ (tradeExit closes i sl tp).2 ≤ tp := by
  simp only [tradeExit]
  rcases hfe : findExit closes (closes.getD i 0) sl tp (min (i + 24) (closes.length - 1))
      (i + 1) with _ | jr
  · have hm := findExit_none_miss closes (closes.getD i 0) sl tp _ _ hfe
      (min (i + 24) (closes.length - 1)) (by omega) (le_refl _)
    simp only [hfe]
    exact ⟨le_of_lt hm.1, le_of_lt hm.2⟩
  · have hb := findExit_some_bounds closes (closes.getD i 0) sl tp _ _ _ hfe
    simp only [hfe]
    rcases hb.2.2 with hr | hr <;> rw [hr]
    · exact ⟨le_refl _, by linarith⟩
    · exact ⟨by linarith, le_refl _⟩

theorem applyTrade_log (ps : ℝ) (st : SimState) (i : ℕ) (je : ℕ × ℝ) :
    (applyTrade ps st i je).log = st.log ++ [⟨i, je.1, je.2⟩] := rfl

theorem applyTrade_equity (ps : ℝ) (st : SimState) (i : ℕ) (je : ℕ × ℝ) :
    (applyTrade ps st i je).equity = st.equity + st.equity * ps * je.2 := rfl

/-- Fuel adequacy of the loop embedding: since every iteration strictly
advances the cursor, any two fuels of at least len(closes) - i produce the
same final state, so the fuel len(closes) passed by portfolio_simulate runs
the while loop to completion. -/
theorem simLoopF_fuel_stable (closes : List ℝ) (thr ps sl tp : ℝ) :
    ∀ (fuel fuel' i : ℕ) (st : SimState),
      closes.length - i ≤ fuel → closes.length - i ≤ fuel' →
      simLoopF closes thr ps sl tp fuel i st = simLoopF closes thr ps sl tp fuel' i st := by
  intro fuel
  induction fuel with
  | zero =>
    intro fuel' i st hf hf'
    have hng : ¬ i < closes.length - 2 := by omega
    cases fuel' with
    | zero => rfl
    | succ f' =>
      simp only [simLoopF]
      rw [if_neg hng]
  | succ fuel ih =>
    intro fuel' i st hf hf'
    by_cases hc : i < closes.length - 2
    · cases fuel' with
      | zero => exact absurd hf' (by omega)
      | succ f' =>
        simp only [simLoopF]
        rw [if_pos hc, if_pos hc]
        split_ifs with hpu
        · exact ih f' (i + 1) st (by omega) (by omega)
        · have hj := (tradeExit_fst_bounds closes i sl tp hc).1
          exact ih f' _ _ (by omega) (by omega)
    · cases fuel' with
      | zero =>
        simp only [simLoopF]
        rw [if_neg hc]
      | succ f' =>
        simp only [simLoopF]
        rw [if_neg hc, if_neg hc]

theorem simLoopF_log_closed (closes : List ℝ) (thr ps sl tp : ℝ) :
    ∀ (fuel i : ℕ) (st : SimState),
      List.Pairwise tradeOrdered st.log →
      (∀ t ∈ st.log, t.entryIdx ≤ t.exitIdx ∧ t.exitIdx < i) →
      List.Pairwise tradeOrdered (simLoopF closes thr ps sl tp fuel i st).log ∧
        ∀ t ∈ (simLoopF closes thr ps sl tp fuel i st).log, t.entryIdx ≤ t.exitIdx := by
  intro fuel
  induction fuel with
  | zero =>
    intro i st hp hb
    exact ⟨hp, fun t ht => (hb t ht).1⟩
  | succ fuel ih =>
    intro i st hp hb
    simp only [simLoopF]
    split_ifs with hc hpu
    · exact ih (i + 1) st hp (fun t ht => ⟨(hb t ht).1, by have := (hb t ht).2; omega⟩)
    · have hj := (tradeExit_fst_bounds closes i sl tp hc).1
      apply ih
      · rw [applyTrade_log, List.pairwise_append]
        refine ⟨hp, List.pairwise_singleton .., ?_⟩
        intro a ha b hbm
        rw [List.mem_singleton] at hbm
        subst hbm
        have hba := hb a ha
        exact ⟨show a.entryIdx < i by omega, show a.exitIdx < i by omega⟩
      · intro t ht
        rw [applyTrade_log, List.mem_append] at ht
        rcases ht with ht | ht
        · have hbt := hb t ht
          exact ⟨hbt.1, by omega⟩
        · rw [List.mem_singleton] at ht
          subst ht
          exact ⟨show i ≤ (tradeExit closes i sl tp).1 by omega,
            show (tradeExit closes i sl tp).1 < (tradeExit closes i sl tp).1 + 1 by omega⟩
    · exact ⟨hp, fun t ht => (hb t ht).1⟩

/-- C6: every successful portfolio simulation produces a trade log whose
entry indices strictly increase and whose [entry, exit] bar ranges are
pairwise disjoint; each trade exits at or after its entry bar. -/
theorem sim_trades_non_overlap (klines : List ℝ) (lookback : ℕ) (risk : RiskProfile)
    (cap : ℝ) :
    onOk (portfolio_simulate klines lookback risk cap) (fun r =>
      List.Pairwise tradeOrdered r.log ∧
      r.log.Forall (fun t => t.entryIdx ≤ t.exitIdx)) := by
  unfold portfolio_simulate
  split_ifs with hlt
  · trivial
  · simp only [onOk]
    have h := simLoopF_log_closed (lastWindow klines lookback) (entry_threshold risk)
      (risk_params risk).1 (risk_params risk).2.1 (risk_params risk).2.2
      (lastWindow klines lookback).length 60 ⟨cap, cap, 0, 0, 0, []⟩
      (List.Pairwise.nil) (by intro t ht; cases ht)
    refine ⟨h.1, ?_⟩
    rw [List.forall_iff_forall_mem]
    exact h.2

theorem simLoopF_exit_ret_bounded (closes : List ℝ) (thr ps sl tp : ℝ)
    (hsl : 0 ≤ sl) (htp : 0 ≤ tp) :
    ∀ (fuel i : ℕ) (st : SimState),
      (∀ t ∈ st.log, -sl ≤ t.exitRet ∧ t.exitRet ≤ tp) →
      ∀ t ∈ (simLoopF closes thr ps sl tp fuel i st).log,
        -sl ≤ t.exitRet ∧ t.exitRet ≤ tp := by
  intro fuel
  induction fuel with
  | zero =>
    intro i st hb
    exact hb
  | succ fuel ih =>
    intro i st hb
    simp only [simLoopF]
    split_ifs with hc hpu
    · exact ih (i + 1) st hb
    · apply ih
      intro t ht
      rw [applyTrade_log, List.mem_append] at ht
      rcases ht with ht | ht
      · exact hb t ht
      · rw [List.mem_singleton] at ht
        subst ht
        exact tradeExit_snd_bounds closes i sl tp hc hsl htp
    · exact hb

/-- C9: every trade recorded by a successful portfolio simulation realizes
an exit return within the closed interval [-stop_loss_pct, take_profit_pct]
of the chosen risk profile: stop and target exits are clipped exactly to
the bound, and a time-based exit lies strictly inside because its bar was
already scanned without triggering either exit. -/
theorem sim_exit_returns_bounded (klines : List ℝ) (lookback : ℕ) (risk : RiskProfile)
    (cap : ℝ) :
    onOk (portfolio_simulate klines lookback risk cap) (fun r =>
      r.log.Forall (fun t =>
        -(risk_params risk).2.1 ≤ t.exitRet ∧ t.exitRet ≤ (risk_params risk).2.2)) := by
  have hsl : 0 ≤ (risk_params risk).2.1 := by cases risk <;> norm_num [risk_params]
  have htp : 0 ≤ (risk_params risk).2.2 := by cases risk <;> norm_num [risk_params]
  unfold portfolio_simulate
  split_ifs with hlt
  · trivial
  · simp only [onOk]
    rw [List.forall_iff_forall_mem]
    exact simLoopF_exit_ret_bounded (lastWindow klines lookback) (entry_threshold risk)
      (risk_params risk).1 (risk_params risk).2.1 (risk_params risk).2.2 hsl htp
      (lastWindow klines lookback).length 60 ⟨cap, cap, 0, 0, 0, []⟩
      (by intro t ht; cases ht)

theorem simLoopF_equity_pos (closes : List ℝ) (thr ps sl tp : ℝ)
    (hps : 0 ≤ ps) (hsl : 0 ≤ sl) (htp : 0 ≤ tp) (hsmall : ps * sl < 1) :
    ∀ (fuel i : ℕ) (st : SimState), 0 < st.equity →
      0 < (simLoopF closes thr ps sl tp fuel i st).equity := by
  intro fuel
  induction fuel with
  | zero =>
    intro i st hst
    exact hst
  | succ fuel ih =>
    intro i st hst
    simp only [simLoopF]
    split_ifs with hc hpu
    · exact ih (i + 1) st hst
    · apply ih
      have hret := (tradeExit_snd_bounds closes i sl tp hc hsl htp).1
      rw [applyTrade_equity]
      have hfac : 0 < 1 + ps * (tradeExit closes i sl tp).2 := by
        have hmul : ps * -sl ≤ ps * (tradeExit closes i sl tp).2 :=
          mul_le_mul_of_nonneg_left hret hps
        nlinarith
      calc (0:ℝ) < st.equity * (1 + ps * (tradeExit closes i sl tp).2) :=
            mul_pos hst hfac
        _ = st.equity + st.equity * ps * (tradeExit closes i sl tp).2 := by ring
    · exact hst

/-- C10: with positive initial capital the simulator equity stays strictly
positive through every trade (a trade changes equity by the factor
1 + position_size_pct * exit_ret, and position_size_pct * stop_loss_pct is
below 1 for every profile), so every successful simulation reports a
strictly positive final equity and a pnl_pct strictly above -1. -/
theorem sim_equity_stays_positive :
    (∀ (closes : List ℝ) (risk : RiskProfile) (fuel i : ℕ) (st : SimState),
      0 < st.equity →
      0 < (simLoopF closes (entry_threshold risk) (risk_params risk).1
        (risk_params risk).2.1 (risk_params risk).2.2 fuel i st).equity) ∧
    ∀ (klines : List ℝ) (lookback : ℕ) (risk : RiskProfile) (cap : ℝ), 0 < cap →
      onOk (portfolio_simulate klines lookback risk cap)
        (fun r => 0 < r.final_equity ∧ -1 < r.pnl_pct) := by
  have hparams : ∀ risk : RiskProfile, 0 ≤ (risk_params risk).1 ∧
      0 ≤ (risk_params risk).2.1 ∧ 0 ≤ (risk_params risk).2.2 ∧
      (risk_params risk).1 * (risk_params risk).2.1 < 1 := by
    intro risk
    cases risk <;> norm_num [risk_params]
  constructor
  · intro closes risk fuel i st hst
    exact simLoopF_equity_pos closes (entry_threshold risk) (risk_params risk).1
      (risk_params risk).2.1 (risk_params risk).2.2 (hparams risk).1 (hparams risk).2.1
      (hparams risk).2.2.1 (hparams risk).2.2.2 fuel i st hst
  · intro klines lookback risk cap hcap
    unfold portfolio_simulate
    split_ifs with hlt
    · trivial
    · simp only [onOk]
      have heq : 0 < (simLoopF (lastWindow klines lookback) (entry_threshold risk)
          (risk_params risk).1 (risk_params risk).2.1 (risk_params risk).2.2
          (lastWindow klines lookback).length 60 ⟨cap, cap, 0, 0, 0, []⟩).equity :=
        simLoopF_equity_pos (lastWindow klines lookback) (entry_threshold risk)
          (risk_params risk).1 (risk_params risk).2.1 (risk_params risk).2.2
          (hparams risk).1 (hparams risk).2.1 (hparams risk).2.2.1 (hparams risk).2.2.2
          (lastWindow klines lookback).length 60 ⟨cap, cap, 0, 0, 0, []⟩ hcap
      refine ⟨heq, ?_⟩
      show -1 < (simLoopF (lastWindow klines lookback) (entry_threshold risk)
        (risk_params risk).1 (risk_params risk).2.1 (risk_params risk).2.2
        (lastWindow klines lookback).length 60 ⟨cap, cap, 0, 0, 0, []⟩).equity / cap - 1
      have hdiv : 0 < (simLoopF (lastWindow klines lookback) (entry_threshold risk)
          (risk_params risk).1 (risk_params risk).2.1 (risk_params risk).2.2
          (lastWindow klines lookback).length 60 ⟨cap, cap, 0, 0, 0, []⟩).equity / cap :=
        div_pos heq hcap
      linarith

theorem sim_equity_stays_positive_witness :
    0 < (simLoopF [] (entry_threshold .moderate) (risk_params .moderate).1
      (risk_params .moderate).2.1 (risk_params .moderate).2.2 0 0
      ⟨1, 1, 0, 0, 0, []⟩).equity ∧
    onOk (portfolio_simulate (List.replicate 63 (1:ℝ)) 63 .moderate 10000)
      (fun r => 0 < r.final_equity ∧ -1 < r.pnl_pct) :=
  ⟨sim_equity_stays_positive.1 [] .moderate 0 0 ⟨1, 1, 0, 0, 0, []⟩ one_pos,
    sim_equity_stays_positive.2 (List.replicate 63 (1:ℝ)) 63 .moderate 10000 (by norm_num)⟩

end CryptoTrend
